import Mathlib

/-!
Verification of the StarfleetAI bridge-common orchestration core.

The definitions below are a shallow embedding of the Rust source:
pure functions become Lean functions, database tables become lists of
rows, and the effectful repository / executor operations become explicit
state-passing functions.  Each definition names the Rust item it embeds.
-/

/-! ## String helpers (Rust `str::trim`, `char::is_whitespace`) -/

/-- Rust's `char::is_whitespace`: the Unicode `White_Space` property. -/
def isRustWhitespace (c : Char) : Bool :=
  (0x09 ≤ c.val && c.val ≤ 0x0D) || c.val = 0x20 || c.val = 0x85 || c.val = 0xA0 ||
    c.val = 0x1680 || (0x2000 ≤ c.val && c.val ≤ 0x200A) || c.val = 0x2028 ||
    c.val = 0x2029 || c.val = 0x202F || c.val = 0x205F || c.val = 0x3000

/-- Rust `str::trim_start` on a character list. -/
def trimLeft (l : List Char) : List Char := l.dropWhile isRustWhitespace

/-- Rust `str::trim_end` on a character list. -/
def trimRight (l : List Char) : List Char := (l.reverse.dropWhile isRustWhitespace).reverse

/-- Rust `str::trim` on a character list. -/
def rustTrim (l : List Char) : List Char := trimRight (trimLeft l)

/-! ## `cleanup_json_string_newlines` (src/chats.rs) -/

/-- The character loop of `cleanup_json_string_newlines`: walks the input
tracking `in_quotes` and `last_char`, escaping newlines inside quotes and
dropping newlines outside quotes (a dropped newline does not update
`last_char`). -/
def cleanupLoop : List Char → Bool → Char → List Char
  | [], _, _ => []
  | c :: cs, inQuotes, lastChar =>
    let inQuotes' := if c = '"' ∧ lastChar ≠ '\\' then !inQuotes else inQuotes
    if c = '\n' then
      if inQuotes' then '\\' :: 'n' :: cleanupLoop cs inQuotes' c
      else cleanupLoop cs inQuotes' lastChar
    else c :: cleanupLoop cs inQuotes' c

theorem cleanupLoop_cons_newline (as : List Char) (q : Bool) (lastChar : Char) :
    cleanupLoop ('\n' :: as) q lastChar =
      if q then '\\' :: 'n' :: cleanupLoop as q '\n'
      else cleanupLoop as q lastChar := by
  have h1 : ¬(('\n' : Char) = '"' ∧ lastChar ≠ '\\') := fun h => absurd h.1 (by decide)
  cases q <;> simp [cleanupLoop, if_neg h1]

theorem cleanupLoop_cons_other (a : Char) (as : List Char) (q : Bool) (lastChar : Char)
    (ha : a ≠ '\n') :
    cleanupLoop (a :: as) q lastChar =
      a :: cleanupLoop as (if a = '"' ∧ lastChar ≠ '\\' then !q else q) a := by
  simp [cleanupLoop, if_neg ha]

/-- Rust `String::replace('\n', "\\n")` on a character list. -/
def replaceNewlines : List Char → List Char
  | [] => []
  | c :: cs =>
    if c = '\n' then '\\' :: 'n' :: replaceNewlines cs else c :: replaceNewlines cs

/-- `cleanup_json_string_newlines` from src/chats.rs: removes literal
newlines outside JSON strings, escapes them inside, then trims and
replaces any remaining newline. -/
def cleanup_json_string_newlines (s : String) : String :=
  ⟨replaceNewlines (rustTrim (cleanupLoop s.data false ' '))⟩

/-! ### Lemmas towards idempotence -/

theorem cleanupLoop_no_newline (l : List Char) :
    ∀ q c, '\n' ∉ cleanupLoop l q c := by
  induction l with
  | nil => intro q c h; simp [cleanupLoop] at h
  | cons a as ih =>
    intro q c h
    by_cases ha : a = '\n'
    · subst ha
      rw [cleanupLoop_cons_newline] at h
      by_cases hq : q = true
      · rw [if_pos hq] at h
        simp only [List.mem_cons] at h
        rcases h with h | h | h
        · exact absurd h (by decide)
        · exact absurd h (by decide)
        · exact ih _ _ h
      · rw [if_neg hq] at h
        exact ih _ _ h
    · rw [cleanupLoop_cons_other a as q c ha] at h
      simp only [List.mem_cons] at h
      rcases h with h | h
      · exact ha h.symm
      · exact ih _ _ h

theorem cleanupLoop_id_of_no_newline (l : List Char) :
    ∀ q c, '\n' ∉ l → cleanupLoop l q c = l := by
  induction l with
  | nil => intro q c _; rfl
  | cons a as ih =>
    intro q c h
    have ha : a ≠ '\n' := fun hc => h (hc ▸ List.mem_cons_self a as)
    have has : '\n' ∉ as := fun hc => h (List.mem_cons_of_mem a hc)
    rw [cleanupLoop_cons_other a as q c ha, ih _ _ has]

theorem replaceNewlines_id_of_no_newline (l : List Char) (h : '\n' ∉ l) :
    replaceNewlines l = l := by
  induction l with
  | nil => rfl
  | cons a as ih =>
    have ha : a ≠ '\n' := fun hc => h (hc ▸ List.mem_cons_self a as)
    have has : '\n' ∉ as := fun hc => h (List.mem_cons_of_mem a hc)
    simp only [replaceNewlines, if_neg ha]
    rw [ih has]

theorem dropWhile_head_false {p : Char → Bool} :
    ∀ (l : List Char) (c : Char) (cs : List Char),
      l.dropWhile p = c :: cs → p c = false := by
  intro l
  induction l with
  | nil => intro c cs h; simp [List.dropWhile] at h
  | cons a as ih =>
    intro c cs h
    by_cases hpa : p a
    · rw [List.dropWhile_cons_of_pos hpa] at h
      exact ih _ _ h
    · rw [List.dropWhile_cons_of_neg hpa] at h
      injection h with h1 h2
      subst h1
      simpa using hpa

theorem dropWhile_idem {p : Char → Bool} (l : List Char) :
    (l.dropWhile p).dropWhile p = l.dropWhile p := by
  cases h : l.dropWhile p with
  | nil => rfl
  | cons c cs =>
    have := dropWhile_head_false l c cs h
    rw [List.dropWhile_cons_of_neg (by simp [this])]

theorem trimRight_isPrefix_self (l : List Char) : trimRight l <+: l := by
  unfold trimRight
  have h : l.reverse.dropWhile isRustWhitespace <:+ l.reverse :=
    List.dropWhile_suffix _
  rcases h with ⟨t, ht⟩
  exact ⟨t.reverse, by
    have := congrArg List.reverse ht
    simpa using this⟩

theorem length_dropWhile_le_self (p : Char → Bool) (l : List Char) :
    (l.dropWhile p).length ≤ l.length := by
  induction l with
  | nil => simp [List.dropWhile]
  | cons a as ih =>
    by_cases h : p a
    · rw [List.dropWhile_cons_of_pos h]
      exact le_trans ih (by simp)
    · rw [List.dropWhile_cons_of_neg h]

theorem trimLeft_of_prefix_fixed {l y : List Char}
    (hy : y <+: l) (hl : trimLeft l = l) : trimLeft y = y := by
  cases y with
  | nil => rfl
  | cons c cs =>
    rcases hy with ⟨t, ht⟩
    have hc : isRustWhitespace c = false := by
      by_contra hcc
      have hc' : isRustWhitespace c = true := by
        cases hx : isRustWhitespace c
        · exact absurd hx hcc
        · rfl
      subst ht
      unfold trimLeft at hl
      rw [List.cons_append, List.dropWhile_cons_of_pos hc'] at hl
      have hle := length_dropWhile_le_self isRustWhitespace (cs ++ t)
      rw [hl] at hle
      simp only [List.length_cons] at hle
      omega
    unfold trimLeft
    rw [List.dropWhile_cons_of_neg (by simp [hc])]

theorem trimRight_idem (l : List Char) : trimRight (trimRight l) = trimRight l := by
  unfold trimRight
  rw [List.reverse_reverse, dropWhile_idem]

theorem trimLeft_idem (l : List Char) : trimLeft (trimLeft l) = trimLeft l :=
  dropWhile_idem l

theorem rustTrim_idem (l : List Char) : rustTrim (rustTrim l) = rustTrim l := by
  unfold rustTrim
  have h1 : trimLeft (trimRight (trimLeft l)) = trimRight (trimLeft l) :=
    trimLeft_of_prefix_fixed (trimRight_isPrefix_self (trimLeft l)) (trimLeft_idem l)
  rw [h1, trimRight_idem]

theorem mem_trimRight_of_mem {c : Char} {l : List Char} (h : c ∈ trimRight l) : c ∈ l := by
  unfold trimRight at h
  rw [List.mem_reverse] at h
  have h2 : l.reverse.dropWhile isRustWhitespace <:+ l.reverse :=
    List.dropWhile_suffix _
  have := h2.subset h
  rwa [List.mem_reverse] at this

theorem mem_rustTrim_of_mem {c : Char} {l : List Char} (h : c ∈ rustTrim l) : c ∈ l := by
  unfold rustTrim at h
  have h1 := mem_trimRight_of_mem h
  have h2 : l.dropWhile isRustWhitespace <:+ l := List.dropWhile_suffix _
  exact h2.subset h1

/-- C8 helper: the output of `cleanup_json_string_newlines` contains no
newline and is already trimmed. -/
theorem cleanup_output_form (s : String) :
    (cleanup_json_string_newlines s).data
      = rustTrim (cleanupLoop s.data false ' ') ∧
    '\n' ∉ (cleanup_json_string_newlines s).data := by
  have hnl : '\n' ∉ rustTrim (cleanupLoop s.data false ' ') := fun hmem =>
    cleanupLoop_no_newline s.data false ' ' (mem_rustTrim_of_mem hmem)
  constructor
  · show replaceNewlines (rustTrim (cleanupLoop s.data false ' '))
        = rustTrim (cleanupLoop s.data false ' ')
    exact replaceNewlines_id_of_no_newline _ hnl
  · show '\n' ∉ replaceNewlines (rustTrim (cleanupLoop s.data false ' '))
    rw [replaceNewlines_id_of_no_newline _ hnl]
    exact hnl

/-- C8: `cleanup_json_string_newlines` is idempotent: applying it twice
equals applying it once. -/
theorem cleanup_json_string_newlines_idem (s : String) :
    cleanup_json_string_newlines (cleanup_json_string_newlines s)
      = cleanup_json_string_newlines s := by
  obtain ⟨hform, hnl⟩ := cleanup_output_form s
  have hdata : (cleanup_json_string_newlines (cleanup_json_string_newlines s)).data
      = (cleanup_json_string_newlines s).data := by
    show replaceNewlines (rustTrim (cleanupLoop
        (cleanup_json_string_newlines s).data false ' '))
      = (cleanup_json_string_newlines s).data
    rw [cleanupLoop_id_of_no_newline _ _ _ hnl, hform, rustTrim_idem, ← hform,
      replaceNewlines_id_of_no_newline _ hnl]
  cases hcs : cleanup_json_string_newlines (cleanup_json_string_newlines s) with
  | mk d1 =>
    cases hcs2 : cleanup_json_string_newlines s with
    | mk d2 =>
      rw [hcs, hcs2] at hdata
      simp only [String.data] at hdata
      exact congrArg String.mk hdata

/-! ## Core data model (src/types) -/

namespace Bridge

/-- `types::tasks::Status`. -/
inductive TaskStatus
  | Draft | ToDo | InProgress | WaitingForUser | Done | Failed
deriving DecidableEq, Repr

/-- `types::messages::Status`. -/
inductive MsgStatus
  | Writing | WaitingForToolCall | Completed | Failed | ToolCallDenied
deriving DecidableEq, Repr

/-- `types::messages::Role`. -/
inductive MsgRole
  | System | User | Assistant | Tool | CodeInterpreter
deriving DecidableEq, Repr

/-- `clients::openai::FunctionCall`. -/
structure FunctionCall where
  name : String
  arguments : String
deriving DecidableEq, Repr

/-- `clients::openai::ToolCall`; the `type` field is always `function`
and is therefore not carried. -/
structure ToolCall where
  id : String
  function : FunctionCall
deriving DecidableEq, Repr

/-- `types::messages::Message`.  Timestamps and token counters are not
modelled; `tool_calls` is carried as the parsed list (the Rust code
stores it as JSON and re-parses it with `Message::tool_calls`, a
round-trip that serde guarantees). -/
structure Message where
  id : Nat := 0
  companyId : Nat := 0
  chatId : Nat := 0
  agentId : Option Nat := none
  status : MsgStatus := .Writing
  role : MsgRole := .System
  content : Option String := none
  toolCalls : List ToolCall := []
  toolCallId : Option String := none
  isSelfReflection : Bool := false
  isInternalToolOutput : Bool := false
deriving DecidableEq, Repr

/-- `types::tasks::Task`.  Task ids are Uuids rendered as strings in
`ancestry`; we carry the rendered string (never containing `'/'`).
`created_at` is an abstract tick used only for ordering. -/
structure Task where
  id : String := ""
  companyId : Nat := 0
  agentId : Nat := 0
  executionChatId : Option Nat := none
  title : String := ""
  summary : String := ""
  status : TaskStatus := .Draft
  ancestry : Option String := none
  ancestryLevel : Int := 0
  createdAt : Nat := 0
deriving DecidableEq, Repr

/-- `Task::children_ancestry` (src/types/tasks.rs lines 120-125). -/
def Task.childrenAncestry (t : Task) : String :=
  match t.ancestry with
  | some a => a ++ "/" ++ t.id
  | none => t.id

/-! ## C9 — startup recovery (src/database.rs `prepare`) -/

/-- `repo::messages::transition_all` (src/repo/messages.rs lines 489-507):
`UPDATE messages SET status = to WHERE status = from`. -/
def messages_transition_all (db : List Message) (srcStatus dstStatus : MsgStatus) :
    List Message :=
  db.map fun m => if m.status = srcStatus then { m with status := dstStatus } else m

/-- `repo::tasks::transition_all` (src/repo/tasks.rs lines 613-626):
`UPDATE tasks SET status = to WHERE status = from`. -/
def tasks_transition_all (db : List Task) (srcStatus dstStatus : TaskStatus) :
    List Task :=
  db.map fun t => if t.status = srcStatus then { t with status := dstStatus } else t

/-- The two tables the recovery touches. -/
structure Db where
  messages : List Message
  tasks : List Task

/-- `database::prepare` (src/database.rs lines 42-66), migrations aside:
transitions all `Writing` messages to `Failed` and all `InProgress`
tasks to `ToDo`. -/
def database_prepare (db : Db) : Db :=
  { messages := messages_transition_all db.messages .Writing .Failed
    tasks := tasks_transition_all db.tasks .InProgress .ToDo }

/-- C9: after `database::prepare`, no message is `Writing` and no task is
`InProgress`; every previously-`Writing` message is now `Failed`, every
previously-`InProgress` task is now `ToDo`, and rows in any other status
are untouched. -/
theorem database_prepare_recovery (db : Db) :
    (∀ m ∈ (database_prepare db).messages, m.status ≠ MsgStatus.Writing) ∧
    (∀ t ∈ (database_prepare db).tasks, t.status ≠ TaskStatus.InProgress) ∧
    (∀ m ∈ db.messages, m.status = MsgStatus.Writing →
      { m with status := MsgStatus.Failed } ∈ (database_prepare db).messages) ∧
    (∀ m ∈ db.messages, m.status ≠ MsgStatus.Writing →
      m ∈ (database_prepare db).messages) ∧
    (∀ t ∈ db.tasks, t.status = TaskStatus.InProgress →
      { t with status := TaskStatus.ToDo } ∈ (database_prepare db).tasks) ∧
    (∀ t ∈ db.tasks, t.status ≠ TaskStatus.InProgress →
      t ∈ (database_prepare db).tasks) := by
  refine ⟨?_, ?_, ?_, ?_, ?_, ?_⟩
  · intro m hm
    simp only [database_prepare, messages_transition_all, List.mem_map] at hm
    obtain ⟨m0, _, hm0⟩ := hm
    by_cases h : m0.status = MsgStatus.Writing
    · rw [if_pos h] at hm0
      intro hc; rw [← hm0] at hc; exact absurd hc (by simp)
    · rw [if_neg h] at hm0
      rw [← hm0]; exact h
  · intro t ht
    simp only [database_prepare, tasks_transition_all, List.mem_map] at ht
    obtain ⟨t0, _, ht0⟩ := ht
    by_cases h : t0.status = TaskStatus.InProgress
    · rw [if_pos h] at ht0
      intro hc; rw [← ht0] at hc; exact absurd hc (by simp)
    · rw [if_neg h] at ht0
      rw [← ht0]; exact h
  · intro m hm hw
    simp only [database_prepare, messages_transition_all, List.mem_map]
    exact ⟨m, hm, by rw [if_pos hw]⟩
  · intro m hm hw
    simp only [database_prepare, messages_transition_all, List.mem_map]
    exact ⟨m, hm, by rw [if_neg hw]⟩
  · intro t ht hw
    simp only [database_prepare, tasks_transition_all, List.mem_map]
    exact ⟨t, ht, by rw [if_pos hw]⟩
  · intro t ht hw
    simp only [database_prepare, tasks_transition_all, List.mem_map]
    exact ⟨t, ht, by rw [if_neg hw]⟩

/-- C9 witness: recovery evaluated on a two-message, two-task store. -/
theorem database_prepare_recovery_witness :
    (∀ m ∈ (database_prepare
        { messages := [{ id := 1, status := MsgStatus.Writing },
                       { id := 2, status := MsgStatus.Completed }]
          tasks := [{ id := "t1", status := TaskStatus.InProgress },
                    { id := "t2", status := TaskStatus.Done }] }).messages,
      m.status ≠ MsgStatus.Writing) ∧
    ({ id := 1, status := MsgStatus.Failed : Message} ∈ (database_prepare
        { messages := [{ id := 1, status := MsgStatus.Writing },
                       { id := 2, status := MsgStatus.Completed }]
          tasks := [{ id := "t1", status := TaskStatus.InProgress },
                    { id := "t2", status := TaskStatus.Done }] }).messages) := by
  have h := database_prepare_recovery
      { messages := [{ id := 1, status := MsgStatus.Writing },
                     { id := 2, status := MsgStatus.Completed }]
        tasks := [{ id := "t1", status := TaskStatus.InProgress },
                  { id := "t2", status := TaskStatus.Done }] }
  refine ⟨h.1, ?_⟩
  have h3 := h.2.2.1 { id := 1, status := MsgStatus.Writing } (by simp) rfl
  simpa using h3


/-! ## C2 — planner status guard (src/task_planner.rs `TaskPlanner::plan`) -/

/-- Errors of `task_planner::Error` relevant to the pre-LLM control flow,
plus the api-key context error raised between the model lookup and the
request. -/
inductive PlanError
  | planningUnavailable (s : TaskStatus)
  | cannotLoadModel
  | apiKeyMissing
deriving DecidableEq, Repr

/-- Environment facts `TaskPlanner::plan` consults before issuing the
chat-completion request: whether `repo::models::get_by_full_name` finds
the default model and whether `settings.api_keys` holds a key for its
provider. -/
structure PlanEnv where
  modelFound : Bool
  apiKeyFound : Bool
deriving DecidableEq, Repr

/-- Outcome of the part of `TaskPlanner::plan` that runs before the LLM
answer is inspected: whether a chat-completion request was issued, and
the error (if any) returned before that point. -/
structure PlanAttempt where
  llmRequested : Bool
  error : Option PlanError
deriving DecidableEq, Repr

/-- Control flow of `TaskPlanner::plan` up to the chat-completion request
(src/task_planner.rs lines 120-162).  The status guard runs first and
rejects exactly `ToDo` and `InProgress`; then the model and its api key
are looked up; then the request is issued. -/
def plan_pre_llm (env : PlanEnv) (status : TaskStatus) : PlanAttempt :=
  match status with
  | .ToDo => { llmRequested := false, error := some (.planningUnavailable .ToDo) }
  | .InProgress => { llmRequested := false, error := some (.planningUnavailable .InProgress) }
  | _ =>
    if env.modelFound then
      if env.apiKeyFound then { llmRequested := true, error := none }
      else { llmRequested := false, error := some .apiKeyMissing }
    else { llmRequested := false, error := some .cannotLoadModel }

/-- C2 counterexample: a task whose status is `Done` is neither `Draft`,
`WaitingForUser` nor `Failed`, yet `TaskPlanner::plan` does not return
`PlanningUnavailable` for it: with the model and api key available it
proceeds to issue the chat-completion request. -/
theorem plan_done_task_not_rejected :
    plan_pre_llm { modelFound := true, apiKeyFound := true } TaskStatus.Done
      = { llmRequested := true, error := none } ∧
    TaskStatus.Done ≠ TaskStatus.Draft ∧
    TaskStatus.Done ≠ TaskStatus.WaitingForUser ∧
    TaskStatus.Done ≠ TaskStatus.Failed := by
  refine ⟨rfl, by decide, by decide, by decide⟩

/-- C2 amended: `TaskPlanner::plan` returns `PlanningUnavailable` exactly
for tasks whose status is `ToDo` or `InProgress`, in both cases before
issuing any LLM request; in particular a `ToDo` task fails with
`PlanningUnavailable` and no chat-completion request is made.  Every
other status (`Draft`, `WaitingForUser`, `Done`, `Failed`) passes the
status guard. -/
theorem plan_pre_llm_guard (env : PlanEnv) (status : TaskStatus) :
    ((plan_pre_llm env status).error = some (.planningUnavailable status)
      ↔ (status = .ToDo ∨ status = .InProgress)) ∧
    (status = .ToDo ∨ status = .InProgress →
      (plan_pre_llm env status).llmRequested = false) ∧
    (plan_pre_llm env .ToDo
      = { llmRequested := false, error := some (.planningUnavailable .ToDo) }) := by
  obtain ⟨mf, kf⟩ := env
  cases status <;> cases mf <;> cases kf <;>
    refine ⟨⟨?_, ?_⟩, ?_, rfl⟩ <;> intro h <;> simp_all [plan_pre_llm]

/-- C2 witness: the guard evaluated at a `ToDo` task. -/
theorem plan_pre_llm_guard_witness :
    (plan_pre_llm { modelFound := true, apiKeyFound := true } TaskStatus.ToDo).error
        = some (.planningUnavailable .ToDo) ∧
    (plan_pre_llm { modelFound := true, apiKeyFound := true } TaskStatus.ToDo).llmRequested
        = false := by
  have h := plan_pre_llm_guard { modelFound := true, apiKeyFound := true } TaskStatus.ToDo
  exact ⟨h.1.mpr (Or.inl rfl), h.2.1 (Or.inl rfl)⟩

/-! ## C4 — `list_all_children` tenant scoping (src/repo/tasks.rs) -/

/-- SQL `value LIKE x || '/%'` for a nullable column and a wildcard-free
`x`: matches non-null values that start with `x ++ "/"`. -/
def likeChildrenOf (value : Option String) (x : String) : Bool :=
  match value with
  | none => false
  | some v => (x ++ "/").data.isPrefixOf v.data

/-- The WHERE clause of `list_all_children` (src/repo/tasks.rs lines
175-186): `company_id = $1 AND ancestry = $2 OR ancestry LIKE $3`.
SQL gives `AND` a higher precedence than `OR`, so the clause reads
`(company_id = $1 AND ancestry = $2) OR (ancestry LIKE $3)` — the
`LIKE` branch is not restricted to the tenant. -/
def list_all_children_pred (companyId : Nat) (ancestry : String) (t : Task) : Bool :=
  (t.companyId = companyId && t.ancestry = some ancestry)
    || likeChildrenOf t.ancestry ancestry

/-- `repo::tasks::list_all_children`: the rows matching the WHERE clause,
ordered by `created_at` ascending. -/
def list_all_children (db : List Task) (companyId : Nat) (ancestry : String) : List Task :=
  List.insertionSort (fun a b => a.createdAt ≤ b.createdAt)
    (db.filter (list_all_children_pred companyId ancestry))

/-- C4 failing input: the two-tenant store used in the theorem below. -/
def c4_db : List Task :=
  [ { id := "b", companyId := 1, ancestry := some "a", createdAt := 0 },
    { id := "x", companyId := 2, ancestry := some "a/b", createdAt := 1 } ]

/-- C4: evaluating `list_all_children` for tenant 1 and ancestry `"a"` on
a store that also holds a tenant-2 row with ancestry `"a/b"`: the
tenant-2 row is included in the result, because SQL operator precedence
leaves the `ancestry LIKE $3` branch of the WHERE clause un-scoped by
`company_id`.  This contradicts the claim that no row of a different
tenant is ever included. -/
theorem list_all_children_cross_tenant_leak :
    (list_all_children c4_db 1 "a").map Task.companyId = [1, 2] ∧
    ∃ t ∈ list_all_children c4_db 1 "a", t.companyId ≠ 1 := by
  refine ⟨by decide, ?_⟩
  refine ⟨{ id := "x", companyId := 2, ancestry := some "a/b", createdAt := 1 }, ?_, by decide⟩
  decide


/-! ## C7 — planner sub-task ancestry (src/task_planner.rs, src/repo/tasks.rs) -/

/-- Number of pieces Rust `s.split('/').count()` yields: one more than
the number of `'/'` characters in `s`. -/
def slashSegments (s : String) : Nat := s.data.count '/' + 1

/-- The `ancestry_level` computation of `repo::tasks::create`
(src/repo/tasks.rs lines 281-291): `ancestry.split('/').count()` when an
ancestry is given, `0` for root tasks. -/
def create_ancestry_level : Option String → Nat
  | some a => slashSegments a
  | none => 0

/-- `repo::tasks::CreateParams` (src/repo/tasks.rs lines 14-24). -/
structure TaskCreateParams where
  agentId : Nat := 0
  title : String := ""
  summary : Option String := none
  status : TaskStatus := .Draft
  ancestry : Option String := none

/-- `repo::tasks::create` (src/repo/tasks.rs lines 274-316): inserts a
row whose `ancestry_level` is derived from the `ancestry` parameter;
`newId` and `now` stand for the id and timestamp the database supplies. -/
def tasks_create (companyId : Nat) (p : TaskCreateParams) (newId : String) (now : Nat) :
    Task :=
  { id := newId
    companyId := companyId
    agentId := p.agentId
    title := p.title
    summary := p.summary.getD ""
    status := p.status
    ancestry := p.ancestry
    ancestryLevel := (create_ancestry_level p.ancestry : Int)
    createdAt := now }

/-- One sub-task of an `ExecutionPlan` (src/task_planner.rs lines 65-75). -/
structure SubTaskSpec where
  title : String
  summary : String
  agentId : Nat

/-- The sub-task creation step of `TaskPlanner::plan`
(src/task_planner.rs lines 167-217): an empty plan is an error, a
single-task plan only re-assigns the task, and a multi-task plan creates
children — but only when the parent's `ancestry_level` is strictly below
`settings.tasks.planning_depth_limit`; each child is created with
`ancestry = parent.children_ancestry()`.  `newIds` and `now` stand for
the database-assigned ids and timestamps. -/
def plan_create_children (depthLimit : Nat) (t : Task) (plan : List SubTaskSpec)
    (newIds : List String) (now : Nat) : List Task :=
  match plan with
  | [] => []
  | [_] => []
  | _ =>
    if t.ancestryLevel ≥ (depthLimit : Int) then []
    else
      (plan.zip newIds).map fun p =>
        tasks_create t.companyId
          { agentId := p.1.agentId
            title := p.1.title
            summary := some p.1.summary
            ancestry := some t.childrenAncestry } p.2 now

theorem childrenAncestry_segments (t : Task) (hid : '/' ∉ t.id.data) :
    slashSegments t.childrenAncestry = create_ancestry_level t.ancestry + 1 := by
  have hcnt : t.id.data.count '/' = 0 := List.count_eq_zero.mpr hid
  cases h : t.ancestry with
  | none =>
    simp [Task.childrenAncestry, h, slashSegments, create_ancestry_level, hcnt]
  | some a =>
    have hslash : ("/" : String).data = ['/'] := rfl
    simp [Task.childrenAncestry, h, slashSegments, create_ancestry_level,
      String.data_append, List.count_append, hcnt, hslash]

theorem plan_create_children_cons2 (depthLimit : Nat) (t : Task)
    (p1 p2 : SubTaskSpec) (ps : List SubTaskSpec) (newIds : List String) (now : Nat) :
    plan_create_children depthLimit t (p1 :: p2 :: ps) newIds now =
      if t.ancestryLevel ≥ (depthLimit : Int) then []
      else
        ((p1 :: p2 :: ps).zip newIds).map fun p =>
          tasks_create t.companyId
            { agentId := p.1.agentId
              title := p.1.title
              summary := some p.1.summary
              ancestry := some t.childrenAncestry } p.2 now := rfl

/-- C7: every sub-task `S` created by one planning step for a task `T`
has `S.ancestry = T.children_ancestry()`, has `S.ancestry_level` equal
to `T.ancestry_level + 1` (which is the segment count of `S.ancestry`),
and is created only when `T.ancestry_level` is strictly below the
planning depth limit. -/
theorem plan_create_children_ancestry (depthLimit : Nat) (t : Task)
    (plan : List SubTaskSpec) (newIds : List String) (now : Nat)
    (hlvl : t.ancestryLevel = (create_ancestry_level t.ancestry : Int))
    (hid : '/' ∉ t.id.data) :
    ∀ s ∈ plan_create_children depthLimit t plan newIds now,
      s.ancestry = some t.childrenAncestry ∧
      s.ancestryLevel = t.ancestryLevel + 1 ∧
      s.ancestryLevel = (create_ancestry_level s.ancestry : Int) ∧
      t.ancestryLevel < (depthLimit : Int) := by
  intro s hs
  rcases plan with _ | ⟨p1, plan1⟩
  · simp [plan_create_children] at hs
  · rcases plan1 with _ | ⟨p2, ps⟩
    · simp [plan_create_children] at hs
    · by_cases hd : t.ancestryLevel ≥ (depthLimit : Int)
      · rw [plan_create_children_cons2, if_pos hd] at hs
        simp at hs
      · rw [plan_create_children_cons2, if_neg hd] at hs
        simp only [List.mem_map] at hs
        obtain ⟨pair, _, hpair⟩ := hs
        subst hpair
        have hanc : (tasks_create t.companyId
            { agentId := pair.1.agentId
              title := pair.1.title
              summary := some pair.1.summary
              ancestry := some t.childrenAncestry } pair.2 now).ancestry
            = some t.childrenAncestry := rfl
        have hlev : (tasks_create t.companyId
            { agentId := pair.1.agentId
              title := pair.1.title
              summary := some pair.1.summary
              ancestry := some t.childrenAncestry } pair.2 now).ancestryLevel
            = (slashSegments t.childrenAncestry : Int) := rfl
        refine ⟨hanc, ?_, ?_, by omega⟩
        · rw [hlev, hlvl, childrenAncestry_segments t hid]
          omega
        · rw [hanc, hlev]
          rfl

/-- C7 witness inputs: a level-1 parent with ancestry `"r"` and a
two-task plan. -/
def c7_parent : Task := { id := "p", ancestry := some "r", ancestryLevel := 1 }

/-- C7 witness inputs: the two planned sub-tasks. -/
def c7_plan : List SubTaskSpec :=
  [{ title := "a", summary := "sa", agentId := 7 },
   { title := "b", summary := "sb", agentId := 8 }]

/-- C7 witness inputs: the first created child row. -/
def c7_child : Task :=
  { id := "c1", companyId := 0, agentId := 7, title := "a", summary := "sa",
    status := TaskStatus.Draft, ancestry := some "r/p", ancestryLevel := 2,
    createdAt := 5 }

/-- C7 witness: one planning step on the level-1 parent with depth limit
2 creates `c7_child`, and the invariants hold for it. -/
theorem plan_create_children_ancestry_witness :
    c7_child ∈ plan_create_children 2 c7_parent c7_plan ["c1", "c2"] 5 ∧
    (c7_child.ancestry = some c7_parent.childrenAncestry ∧
     c7_child.ancestryLevel = c7_parent.ancestryLevel + 1 ∧
     c7_child.ancestryLevel = (create_ancestry_level c7_child.ancestry : Int) ∧
     c7_parent.ancestryLevel < (2 : Int)) := by
  refine ⟨by decide, ?_⟩
  exact plan_create_children_ancestry 2 c7_parent c7_plan ["c1", "c2"] 5
    (by decide) (by decide) c7_child (by decide)

/-! ## Executor state model (src/task_executor.rs, src/repo) -/

/-- `types::task_results::Kind`. -/
inductive TaskResultKind
  | Text | Url
deriving DecidableEq, Repr

/-- `types::task_results::TaskResult` (ids and timestamps abstracted
away; the fields the executor writes). -/
structure TaskResult where
  agentId : Nat
  taskId : String
  kind : TaskResultKind
  data : String
deriving DecidableEq, Repr

/-- The `channel::Event` variants the executor emits. -/
inductive Event
  | messageCreated (m : Message)
  | messageUpdated (m : Message)
  | taskUpdated (t : Task)
  | taskCreated (t : Task)
  | taskResultCreated (tr : TaskResult)
deriving DecidableEq, Repr

/-- Mutable state threaded through the executor: the messages and
task-results tables, the emitted events, and the next fresh message id
the database would assign. -/
structure ExecState where
  messages : List Message := []
  taskResults : List TaskResult := []
  events : List Event := []
  nextMsgId : Nat := 0
deriving DecidableEq, Repr

/-- `repo::messages::CreateParams` (src/repo/messages.rs lines 20-33),
with the same defaults as `Default::default()`. -/
structure MsgCreateParams where
  chatId : Nat := 0
  agentId : Option Nat := none
  status : MsgStatus := .Writing
  role : MsgRole := .System
  content : Option String := none
  toolCalls : List ToolCall := []
  toolCallId : Option String := none
  isSelfReflection : Bool := false
  isInternalToolOutput : Bool := false

/-- `repo::messages::create` (src/repo/messages.rs lines 81-117):
inserts a row with a database-assigned id and returns it. -/
def messages_create (st : ExecState) (companyId : Nat) (p : MsgCreateParams) :
    ExecState × Message :=
  let m : Message :=
    { id := st.nextMsgId
      companyId := companyId
      chatId := p.chatId
      agentId := p.agentId
      status := p.status
      role := p.role
      content := p.content
      toolCalls := p.toolCalls
      toolCallId := p.toolCallId
      isSelfReflection := p.isSelfReflection
      isInternalToolOutput := p.isInternalToolOutput }
  ({ st with messages := st.messages ++ [m], nextMsgId := st.nextMsgId + 1 }, m)

/-- `ORDER BY id DESC LIMIT 1` over a filtered table: the row with the
largest id. -/
def maxById (l : List Message) : Option Message :=
  List.foldl
    (fun acc m =>
      match acc with
      | none => some m
      | some a => if a.id ≤ m.id then some m else some a)
    none l

/-- `repo::messages::get_last_message` (src/repo/messages.rs lines
244-266). -/
def get_last_message (db : List Message) (companyId chatId : Nat) : Option Message :=
  maxById (db.filter fun m => m.companyId = companyId && m.chatId = chatId)

/-- `repo::messages::get_last_non_self_reflection_message`
(src/repo/messages.rs lines 303-328). -/
def get_last_non_self_reflection_message (db : List Message) (companyId chatId : Nat) :
    Option Message :=
  maxById (db.filter fun m =>
    m.companyId = companyId && m.chatId = chatId &&
      m.isSelfReflection = false && m.role = MsgRole.Assistant)

/-- `repo::messages::get_execution_steps_count` (src/repo/messages.rs
lines 273-296): the number of Assistant messages of the chat that are
not internal tool output. -/
def get_execution_steps_count (db : List Message) (companyId chatId : Nat) : Nat :=
  (db.filter fun m =>
    m.companyId = companyId && m.chatId = chatId &&
      m.role = MsgRole.Assistant && m.isInternalToolOutput = false).length

/-! ## Built-in tool handlers (src/task_executor.rs) -/

/-- `ProvideTextResultArgs` (src/task_executor.rs lines 710-714). -/
structure ProvideTextResultArgs where
  text : String := ""
  isDone : Bool := false

/-- `TaskExecutor::sfai_provide_text_result` (src/task_executor.rs lines
544-582): requires the message's agent id, records a `Text` task result
with the given text, emits `TaskResultCreated`, returns `Done` only when
`is_done` is set, and emits `MessageCreated` for the message. -/
def sfai_provide_text_result (st : ExecState) (message : Message)
    (taskId : String) (args : ProvideTextResultArgs) :
    ExecState × Except String (Option TaskStatus) :=
  match message.agentId with
  | none => (st, .error "Agent is not set for the message with a tool call")
  | some aid =>
    let tr : TaskResult := { agentId := aid, taskId := taskId, kind := .Text, data := args.text }
    let st := { st with
        taskResults := st.taskResults ++ [tr]
        events := st.events ++ [Event.taskResultCreated tr] }
    let newStatus : Option TaskStatus := if args.isDone then some .Done else none
    let st := { st with events := st.events ++ [Event.messageCreated message] }
    (st, .ok newStatus)

/-- The tail of `TaskExecutor::sfai_done` after the Tool-message insert
(src/task_executor.rs lines 516-535): if the chat has a last
non-self-reflection assistant message, record its content as a text task
result; return `Done`. -/
def sfai_done_rest (st1 : ExecState) (companyId chatId : Nat) (taskId : String) :
    ExecState × Except String (Option TaskStatus) :=
  match get_last_non_self_reflection_message st1.messages companyId chatId with
  | some rm =>
    let (st2, res) := sfai_provide_text_result st1 rm taskId { text := rm.content.getD "" }
    match res with
    | .error e => (st2, .error e)
    | .ok _ => (st2, .ok (some .Done))
  | none => (st1, .ok (some .Done))

/-- `TaskExecutor::sfai_done` (src/task_executor.rs lines 493-536):
inserts the internal Tool message bound to the call id, then runs
`sfai_done_rest`. -/
def sfai_done (st : ExecState) (companyId : Nat) (message : Message)
    (taskId : String) (toolCall : ToolCall) :
    ExecState × Except String (Option TaskStatus) :=
  let (st1, _) := messages_create st companyId
    { content := some "```\nTask has been marked as done\n```"
      chatId := message.chatId
      status := .Completed
      role := .Tool
      toolCallId := some toolCall.id
      isInternalToolOutput := true }
  sfai_done_rest st1 companyId message.chatId taskId

/-- `TaskExecutor::sfai_fail` (src/task_executor.rs lines 377-399). -/
def sfai_fail (st : ExecState) (companyId : Nat) (message : Message)
    (toolCall : ToolCall) : ExecState × Except String (Option TaskStatus) :=
  let (st1, _) := messages_create st companyId
    { content := some "```\nTask has been marked as failed\n```"
      chatId := message.chatId
      status := .Completed
      role := .Tool
      toolCallId := some toolCall.id
      isInternalToolOutput := true }
  (st1, .ok (some .Failed))

/-- `TaskExecutor::sfai_wait_for_user` (src/task_executor.rs lines
353-375). -/
def sfai_wait_for_user (st : ExecState) (companyId : Nat) (message : Message)
    (toolCall : ToolCall) : ExecState × Except String (Option TaskStatus) :=
  let (st1, _) := messages_create st companyId
    { content := some "```\nWaiting for user input\n```"
      chatId := message.chatId
      status := .Completed
      role := .Tool
      toolCallId := some toolCall.id
      isInternalToolOutput := true }
  (st1, .ok (some .WaitingForUser))

/-- `TaskExecutor::sfai_code_interpreter` (src/task_executor.rs lines
401-436).  `interp` abstracts `interpret_code` (markdown parsing plus
sandboxed execution), yielding the content of the CodeInterpreter
message. -/
def sfai_code_interpreter (interp : Message → String) (st : ExecState)
    (companyId : Nat) (message : Message) :
    ExecState × Except String (Option TaskStatus) :=
  match get_last_non_self_reflection_message st.messages companyId message.chatId with
  | some rm =>
    let (st1, outMsg) := messages_create st companyId
      { content := some (interp rm)
        chatId := message.chatId
        status := .Completed
        role := .CodeInterpreter }
    ({ st1 with events := st1.events ++ [Event.messageCreated outMsg] }, .ok none)
  | none => (st, .ok none)

/-- `TaskExecutor::call_tools` (src/task_executor.rs lines 318-351):
iterates the tool calls of the assistant message; the four `sfai_`
built-ins are handled; every other name falls into the `_ => None` arm —
the delegation to user-defined abilities is commented out behind a TODO
(`crate::abilities::execute_for_message`). -/
def call_tools (interp : Message → String) (st : ExecState) (companyId : Nat)
    (message : Message) (task : Task) :
    List ToolCall → Option TaskStatus → ExecState × Except String (Option TaskStatus)
  | [], acc => (st, .ok acc)
  | tc :: rest, acc =>
    let (st1, res) :=
      if tc.function.name = "sfai_done" then sfai_done st companyId message task.id tc
      else if tc.function.name = "sfai_fail" then sfai_fail st companyId message tc
      else if tc.function.name = "sfai_wait_for_user" then
        sfai_wait_for_user st companyId message tc
      else if tc.function.name = "sfai_code_interpreter" then
        sfai_code_interpreter interp st companyId message
      else (st, .ok none)
    match res with
    | .error e => (st1, .error e)
    | .ok maybeStatus =>
      call_tools interp st1 companyId message task rest
        (match maybeStatus with
         | some s => some s
         | none => acc)


/-! ## C10 — `sfai_done` behaviour -/

/-- The internal Tool message `sfai_done` inserts
(src/task_executor.rs lines 501-514). -/
def doneToolMessage (st : ExecState) (companyId : Nat) (msg : Message) (tc : ToolCall) :
    Message :=
  { id := st.nextMsgId
    companyId := companyId
    chatId := msg.chatId
    status := .Completed
    role := .Tool
    content := some "```\nTask has been marked as done\n```"
    toolCallId := some tc.id
    isInternalToolOutput := true }

theorem get_last_nsr_append_non_assistant (db : List Message) (m : Message)
    (companyId chatId : Nat) (h : m.role ≠ MsgRole.Assistant) :
    get_last_non_self_reflection_message (db ++ [m]) companyId chatId
      = get_last_non_self_reflection_message db companyId chatId := by
  unfold get_last_non_self_reflection_message
  rw [List.filter_append]
  have hm : (List.filter (fun m =>
      m.companyId = companyId && m.chatId = chatId &&
        m.isSelfReflection = false && m.role = MsgRole.Assistant) [m]) = [] := by
    simp [List.filter, h]
  rw [hm, List.append_nil]

theorem sfai_done_rest_messages (st1 : ExecState) (companyId chatId : Nat)
    (taskId : String) :
    (sfai_done_rest st1 companyId chatId taskId).1.messages = st1.messages := by
  unfold sfai_done_rest
  cases hg : get_last_non_self_reflection_message st1.messages companyId chatId with
  | none => rfl
  | some rm =>
    cases hag : rm.agentId with
    | none => simp [sfai_provide_text_result, hag]
    | some a => simp [sfai_provide_text_result, hag]

theorem sfai_done_rest_found (st1 : ExecState) (companyId chatId : Nat) (taskId : String)
    (rm : Message) (a : Nat)
    (hg : get_last_non_self_reflection_message st1.messages companyId chatId = some rm)
    (hag : rm.agentId = some a) :
    sfai_done_rest st1 companyId chatId taskId =
      ({ st1 with
          taskResults := st1.taskResults ++
            [{ agentId := a, taskId := taskId, kind := .Text, data := rm.content.getD "" }]
          events := (st1.events ++
            [Event.taskResultCreated
              { agentId := a, taskId := taskId, kind := .Text,
                data := rm.content.getD "" }]) ++ [Event.messageCreated rm] },
       .ok (some .Done)) := by
  unfold sfai_done_rest
  rw [hg]
  simp [sfai_provide_text_result, hag]

theorem sfai_done_eq (st : ExecState) (companyId : Nat) (msg : Message)
    (taskId : String) (tc : ToolCall) :
    sfai_done st companyId msg taskId tc =
      sfai_done_rest
        { st with
          messages := st.messages ++ [doneToolMessage st companyId msg tc],
          nextMsgId := st.nextMsgId + 1 } companyId msg.chatId taskId := rfl

/-- C10 (amended): dispatching `sfai_done` always inserts the internal
`Tool`-role message with content `"```\nTask has been marked as
done\n```"` bound to the call id; and whenever the chat has a last
non-self-reflection assistant message that carries an agent id, it
additionally records a `Text` task result holding that message's content
(empty string when the content is null), emits `TaskResultCreated`, and
returns status `Done`. -/
theorem sfai_done_spec (st : ExecState) (companyId : Nat) (msg : Message)
    (taskId : String) (tc : ToolCall) :
    doneToolMessage st companyId msg tc
        ∈ (sfai_done st companyId msg taskId tc).1.messages ∧
    ∀ rm a,
      get_last_non_self_reflection_message st.messages companyId msg.chatId = some rm →
      rm.agentId = some a →
      (sfai_done st companyId msg taskId tc).2 = .ok (some .Done) ∧
      ({ agentId := a, taskId := taskId, kind := .Text,
         data := rm.content.getD "" } : TaskResult)
          ∈ (sfai_done st companyId msg taskId tc).1.taskResults ∧
      Event.taskResultCreated
          { agentId := a, taskId := taskId, kind := .Text, data := rm.content.getD "" }
          ∈ (sfai_done st companyId msg taskId tc).1.events := by
  have hq := get_last_nsr_append_non_assistant st.messages
    (doneToolMessage st companyId msg tc) companyId msg.chatId (by simp [doneToolMessage])
  constructor
  · rw [sfai_done_eq, sfai_done_rest_messages]
    simp
  · intro rm a hrm hag
    have hg : get_last_non_self_reflection_message
        (st.messages ++ [doneToolMessage st companyId msg tc]) companyId msg.chatId
        = some rm := by rw [hq, hrm]
    rw [sfai_done_eq, sfai_done_rest_found _ companyId msg.chatId taskId rm a hg hag]
    exact ⟨rfl, by simp, by simp⟩

/-- C10 witness inputs: an assistant message with an agent id, alone in
its chat. -/
def c10_rm : Message :=
  { id := 0, companyId := 1, chatId := 5, agentId := some 3,
    status := .Completed, role := .Assistant, content := some "final answer" }

/-- C10 witness inputs: the store holding only `c10_rm`. -/
def c10_st : ExecState := { messages := [c10_rm], nextMsgId := 1 }

/-- C10 witness inputs: the `sfai_done` tool call. -/
def c10_tc : ToolCall :=
  { id := "call-1", function := { name := "sfai_done", arguments := "" } }

/-- C10 witness: `sfai_done` on a concrete chat inserts the Tool message
and records the assistant message's content as a text task result. -/
theorem sfai_done_spec_witness :
    doneToolMessage c10_st 1 c10_rm c10_tc
        ∈ (sfai_done c10_st 1 c10_rm "t7" c10_tc).1.messages ∧
    ((sfai_done c10_st 1 c10_rm "t7" c10_tc).2 = .ok (some .Done) ∧
     ({ agentId := 3, taskId := "t7", kind := .Text,
        data := c10_rm.content.getD "" } : TaskResult)
         ∈ (sfai_done c10_st 1 c10_rm "t7" c10_tc).1.taskResults ∧
     Event.taskResultCreated
         { agentId := 3, taskId := "t7", kind := .Text, data := c10_rm.content.getD "" }
         ∈ (sfai_done c10_st 1 c10_rm "t7" c10_tc).1.events) := by
  have h := sfai_done_spec c10_st 1 c10_rm "t7" c10_tc
  exact ⟨h.1, h.2 c10_rm 3 (by decide) (by decide)⟩

/-- C10 counterexample inputs: an assistant message without an agent id. -/
def c10_rm_noagent : Message :=
  { id := 0, companyId := 1, chatId := 5, agentId := none,
    status := .Completed, role := .Assistant, content := some "res" }

/-- C10 counterexample inputs: the store holding only `c10_rm_noagent`. -/
def c10_st_noagent : ExecState := { messages := [c10_rm_noagent], nextMsgId := 1 }

/-- C10 counterexample: when the last non-self-reflection assistant
message has no agent id, `sfai_done` fails with an error instead of
creating a `TaskResult` and returning `Done` — refuting the claim as
stated ("whenever the chat contains a last non-self-reflection Assistant
message, it additionally creates a TaskResult … before returning status
Done"). -/
theorem sfai_done_no_agent_counterexample :
    get_last_non_self_reflection_message c10_st_noagent.messages 1 5
        = some c10_rm_noagent ∧
    (sfai_done c10_st_noagent 1 c10_rm_noagent "t7" c10_tc).2
        = .error "Agent is not set for the message with a tool call" ∧
    (sfai_done c10_st_noagent 1 c10_rm_noagent "t7" c10_tc).1.taskResults = [] := by
  refine ⟨rfl, rfl, rfl⟩

/-! ## C3 — dispatch of non-built-in tool names -/

/-- C3 failing input: a tool call whose name is none of the built-ins. -/
def c3_tc : ToolCall :=
  { id := "call-9", function := { name := "get_weather", arguments := "\x7b\"city\":\"Paris\"\x7d" } }

/-- C3 failing input: the assistant message carrying `c3_tc`. -/
def c3_msg : Message :=
  { id := 0, companyId := 1, chatId := 5, agentId := some 3,
    status := .WaitingForToolCall, role := .Assistant, toolCalls := [c3_tc] }

/-- C3: dispatching an assistant message whose only tool call is the
non-built-in `get_weather` leaves the store untouched: no Tool message
is created, nothing is executed in a sandbox, no event is emitted, and
no status is produced.  The `_ => None` arm of `call_tools` ignores the
call; the delegation to user-defined abilities
(`abilities::execute_for_message`) is commented out behind a TODO. -/
theorem call_tools_unknown_tool_ignored :
    call_tools (fun _ => "") {} 1 c3_msg {} [c3_tc] none = ({}, .ok none) ∧
    (call_tools (fun _ => "") {} 1 c3_msg {} [c3_tc] none).1.messages = [] ∧
    (call_tools (fun _ => "") {} 1 c3_msg {} [c3_tc] none).1.events = [] := by
  refine ⟨rfl, rfl, rfl⟩

/-! ## C1 — executor dialog loop and the execution-steps limit -/

/-- `DEFAULT_EXECUTION_STEPS_LIMIT` (src/settings.rs line 13); also the
value of `settings.agents.execution_steps_limit` by default. -/
def defaultExecutionStepsLimit : Nat := 12

/-- The possible decisions of one iteration of the `execute_task` dialog
loop (src/task_executor.rs lines 261-310). -/
inductive ExecStep
  | sendToAgent
  | selfReflect
  | codeInterpreter
  | callTools (tcs : List ToolCall)
  | errUnexpectedSystemMessage
deriving DecidableEq, Repr

/-- One iteration of the `execute_task` dialog loop
(src/task_executor.rs lines 261-310), as a function of the last message
of the execution chat.  `hasCodeBlocks` abstracts
`parse_code_blocks(content)` succeeding with a non-empty list.  The
decision consults nothing else — in particular it never reads
`get_execution_steps_count` or `settings.agents.execution_steps_limit`,
which no code in the repository calls. -/
def execute_task_step (hasCodeBlocks : String → Bool) :
    Option Message → ExecStep
  | none => .sendToAgent
  | some m =>
    match m.role with
    | .CodeInterpreter | .Tool | .User => .sendToAgent
    | .System => .errUnexpectedSystemMessage
    | .Assistant =>
      match m.toolCalls with
      | [] =>
        if m.isSelfReflection then .sendToAgent
        else if hasCodeBlocks (m.content.getD "") then .codeInterpreter
        else .selfReflect
      | tcs => .callTools tcs

/-- C1 failing input: an execution chat already holding
`defaultExecutionStepsLimit` (12) non-internal Assistant messages, whose
last message is a User message. -/
def c1_messages : List Message :=
  ((List.range 12).map fun i =>
    { id := i, companyId := 1, chatId := 1, agentId := some 3,
      status := .Completed, role := .Assistant, content := some "step" }) ++
  [{ id := 12, companyId := 1, chatId := 1, status := .Completed,
     role := .User, content := some "go on" }]

/-- C1: the execution chat of `c1_messages` has already reached the
execution-steps limit (12 non-internal Assistant messages), yet the
dialog loop's next iteration still sends the chat to the agent —
issuing another LLM completion — instead of terminating the loop with
`Failed`.  `execute_task` never consults `get_execution_steps_count`,
so the count of Assistant messages can exceed the limit. -/
theorem execute_task_loop_ignores_steps_limit :
    get_execution_steps_count c1_messages 1 1 = defaultExecutionStepsLimit ∧
    execute_task_step (fun _ => false) (get_last_message c1_messages 1 1)
      = .sendToAgent ∧
    (∀ hasCodeBlocks : String → Bool,
      execute_task_step hasCodeBlocks (get_last_message c1_messages 1 1)
        = .sendToAgent) := by
  refine ⟨by decide, by decide, ?_⟩
  intro hasCodeBlocks
  have hlast : get_last_message c1_messages 1 1
      = some { id := 12, companyId := 1, chatId := 1, status := .Completed,
               role := .User, content := some "go on" } := by decide
  rw [hlast]
  rfl

/-! ## Chat-completion streaming (src/chats.rs) -/

/-- A JSON value, as `serde_json::Value`. -/
inductive Json
  | null
  | bool (b : Bool)
  | num (n : Int)
  | str (s : String)
  | arr (elems : List Json)
  | obj (fields : List (String × Json))

/-- `serde_json::Value::get(key)`: field lookup, `None` on non-objects. -/
def Json.get : Json → String → Option Json
  | .obj fields, key => (fields.find? fun f => f.1 = key).map fun f => f.2
  | _, _ => none

/-- `serde_json::Value` square-bracket indexing by `usize`: element of an
array, `Null` out of bounds or on non-arrays. -/
def Json.idx : Json → Nat → Json
  | .arr elems, i => elems.getD i .null
  | _, _ => .null

/-- An empty in-progress tool call: type `function`, empty id, name and
arguments (src/chats.rs lines 437-444). -/
def emptyToolCall : ToolCall := { id := "", function := { name := "", arguments := "" } }

/-- `apply_completion_chunk` (src/chats.rs lines 385-519), applied to the
JSON-decoded frame (the part after the `data: ` prefix; the text-level
prefix/decoding failures are handled by the caller).  A string `content`
fragment accretes onto `content`; a `tool_calls[0]` frame starts a new
in-progress tool call when none is in progress or the frame bears an
`id`, and accretes the `id`, `function.name` and `function.arguments`
string fragments; the in-progress call replaces the stored last call
when their ids match, and is appended otherwise.
`chunk_delta` extracts `choices[0].delta` (src/chats.rs lines 406-410). -/
def chunk_delta (completion : Json) : Option Json :=
  match completion.get "choices" with
  | some choices => (choices.idx 0).get "delta"
  | none => none

/-- The `content` accretion of `apply_completion_chunk`
(src/chats.rs lines 412-428). -/
def chunk_new_content (message : Message) (delta : Option Json) : Option String :=
  match delta.bind fun d => d.get "content" with
  | some (.str s) =>
    match message.content with
    | some existed => some (existed ++ s)
    | none => some s
  | _ => message.content

/-- The `tool_calls[0]` accretion of `apply_completion_chunk`
(src/chats.rs lines 430-486), producing the in-progress tool call. -/
def chunk_step (current0 : Option ToolCall) (delta : Option Json) :
    Except String (Option ToolCall) :=
  match delta.bind fun d => d.get "tool_calls" with
  | some tcs =>
    match tcs with
    | .arr _ =>
      let tc0 := tcs.idx 0
      let base : Option ToolCall :=
        if current0.isNone || (tc0.get "id").isSome then some emptyToolCall
        else current0
      let withId : Except String (Option ToolCall) :=
        match tc0.get "id" with
        | some idv =>
          match idv with
          | .str s =>
            match base with
            | some c => .ok (some { c with id := c.id ++ s })
            | none => .error "Failed to get tool call"
          | _ => .error "Failed to get id as str"
        | none => .ok base
      match withId with
      | .error e => .error e
      | .ok base1 =>
        match tc0.get "function" with
        | some fv =>
          let withName : Except String (Option ToolCall) :=
            match fv.get "name" with
            | some nv =>
              match nv with
              | .str s =>
                match base1 with
                | some c =>
                  .ok (some { c with function :=
                    { c.function with name := c.function.name ++ s } })
                | none => .error "Failed to get tool call"
              | _ => .error "Failed to get name as str"
            | none => .ok base1
          match withName with
          | .error e => .error e
          | .ok base2 =>
            match fv.get "arguments" with
            | some av =>
              match av with
              | .str s =>
                match base2 with
                | some c =>
                  .ok (some { c with function :=
                    { c.function with arguments := c.function.arguments ++ s } })
                | none => .error "Failed to get tool call"
              | _ => .error "Failed to get arguments as str"
            | none => .ok base2
        | none => .ok base1
    | _ => .ok current0
  | _ => .ok current0

/-- The final tool-call list rebuild of `apply_completion_chunk`
(src/chats.rs lines 492-516): the in-progress call replaces the stored
last call when their ids match, and is appended otherwise. -/
def chunk_rebuild (message : Message) (currentFinal : Option ToolCall) : List ToolCall :=
  match currentFinal with
  | none => message.toolCalls
  | some tc =>
    match message.toolCalls.getLast? with
    | none => [tc]
    | some lastTc =>
      (if tc.id = lastTc.id then message.toolCalls.dropLast else message.toolCalls)
        ++ [tc]

def apply_completion_chunk (message : Message) (completion : Json) :
    Except String Message :=
  match chunk_step message.toolCalls.getLast? (chunk_delta completion) with
  | .error e => .error e
  | .ok currentFinal =>
    .ok { message with
      content := chunk_new_content message (chunk_delta completion),
      toolCalls := chunk_rebuild message currentFinal }

/-! ## C5 — tool-call accretion across delta frames -/

/-- One `tool_calls[0]` SSE delta frame: the optional `id`,
`function.name` and `function.arguments` string fragments it carries. -/
structure ToolCallFrame where
  id : Option String := none
  name : Option String := none
  arguments : Option String := none

/-- The JSON object of a `tool_calls[0]` frame. -/
def frameToolCallJson (f : ToolCallFrame) : Json :=
  Json.obj
    ((match f.id with
      | some s => [("id", Json.str s)]
      | none => []) ++
     (match f.name, f.arguments with
      | none, none => []
      | _, _ =>
        [("function", Json.obj
          ((match f.name with
            | some s => [("name", Json.str s)]
            | none => []) ++
           (match f.arguments with
            | some s => [("arguments", Json.str s)]
            | none => [])))]))

/-- A full SSE delta frame `{"choices":[{"delta":{"tool_calls":[…]}}]}`. -/
def mkDeltaChunk (f : ToolCallFrame) : Json :=
  Json.obj [("choices", Json.arr [Json.obj [("delta",
    Json.obj [("tool_calls", Json.arr [frameToolCallJson f])])]])]

/-- Appending a frame's string fragments to a tool call. -/
def appendFrame (c : ToolCall) (f : ToolCallFrame) : ToolCall :=
  { id := c.id ++ f.id.getD ""
    function := { name := c.function.name ++ f.name.getD ""
                  arguments := c.function.arguments ++ f.arguments.getD "" } }

theorem getLast?_append_single {α : Type} (l : List α) (a : α) :
    (l ++ [a]).getLast? = some a := by
  rw [List.getLast?_concat]

/-- C5 helper: a fresh in-progress tool call is started exactly when no
tool call is in progress or the frame carries an `id`; otherwise the
fragments accrete onto the in-progress (last) call. -/
theorem apply_completion_chunk_frame_accretion (m : Message) (f : ToolCallFrame) :
    (apply_completion_chunk m (mkDeltaChunk f)).map (fun m2 => m2.toolCalls.getLast?)
      = .ok (some
          (match m.toolCalls.getLast?, f.id with
           | none, _ => appendFrame emptyToolCall f
           | some _, some _ => appendFrame emptyToolCall f
           | some lastTc, none => appendFrame lastTc f)) := by
  obtain ⟨fid, fname, fargs⟩ := f
  cases hl : m.toolCalls.getLast? with
  | none =>
    have hempty : m.toolCalls = [] := by
      cases hm : m.toolCalls with
      | nil => rfl
      | cons x xs =>
        rw [hm] at hl
        simp [List.getLast?_eq_getLast] at hl
    cases fid <;> cases fname <;> cases fargs <;>
      simp [apply_completion_chunk, chunk_delta, chunk_new_content, chunk_step, chunk_rebuild,
        mkDeltaChunk, frameToolCallJson, Json.get, Json.idx,
        appendFrame, emptyToolCall, hl, hempty, getLast?_append_single,
        String.append_empty, String.empty_append, Except.map]
  | some lastTc =>
    cases fid <;> cases fname <;> cases fargs <;>
      simp [apply_completion_chunk, chunk_delta, chunk_new_content, chunk_step, chunk_rebuild,
        mkDeltaChunk, frameToolCallJson, Json.get, Json.idx,
        appendFrame, emptyToolCall, hl, getLast?_append_single,
        String.append_empty, String.empty_append, Except.map]

/-! ## C5/C6 — stream finalization and scenario 3 -/

/-- The `[DONE]` finalization step of `create_completion_stream`
(src/chats.rs lines 277-293): set the status from the accumulated tool
calls and clean the tool-call arguments of literal newlines. -/
def finalize_done (m : Message) : Message :=
  let status := if m.toolCalls.isEmpty then MsgStatus.Completed
                else MsgStatus.WaitingForToolCall
  let tcs := m.toolCalls.map fun tc =>
    { tc with function := { tc.function with
        arguments := cleanup_json_string_newlines tc.function.arguments } }
  { m with status := status, toolCalls := tcs }

/-- Scenario 3, first frame:
`{"choices":[{"delta":{"tool_calls":[{"id":"x","function":{"name":"f","arguments":"{\"a\":"}}]}}]}`. -/
def scenario3_chunk1 : Json :=
  Json.obj [("choices", Json.arr [Json.obj [("delta", Json.obj [("tool_calls",
    Json.arr [Json.obj [("id", Json.str "x"),
      ("function", Json.obj [("name", Json.str "f"),
        ("arguments", Json.str "\x7b\"a\":")])]])])]])]

/-- Scenario 3, second frame:
`{"choices":[{"delta":{"tool_calls":[{"function":{"arguments":"1}"}}]}}]}`. -/
def scenario3_chunk2 : Json :=
  Json.obj [("choices", Json.arr [Json.obj [("delta", Json.obj [("tool_calls",
    Json.arr [Json.obj [("function",
      Json.obj [("arguments", Json.str "1\x7d")])]])])]])]

/-- Scenario 3: the freshly-inserted streaming assistant message. -/
def scenario3_start : Message :=
  { id := 0, companyId := 1, chatId := 5, agentId := some 3,
    status := .Writing, role := .Assistant }

/-- C5: a new in-progress tool call (empty id/name/arguments) is started
exactly when no tool call is in progress or the frame carries an `id`;
otherwise the frame's `id`, `function.name` and `function.arguments`
string fragments accrete onto the in-progress call.  In particular, the
two-frame split stream of scenario 3 followed by `[DONE]` yields exactly
one tool call `{id:"x", function:{name:"f", arguments:"{\"a\":1}"}}` and
status `WaitingForToolCall`. -/
theorem apply_completion_chunk_spec :
    (∀ (m : Message) (f : ToolCallFrame),
      (apply_completion_chunk m (mkDeltaChunk f)).map (fun m2 => m2.toolCalls.getLast?)
        = .ok (some
            (match m.toolCalls.getLast?, f.id with
             | none, _ => appendFrame emptyToolCall f
             | some _, some _ => appendFrame emptyToolCall f
             | some lastTc, none => appendFrame lastTc f))) ∧
    ((apply_completion_chunk scenario3_start scenario3_chunk1).bind
        fun m1 => apply_completion_chunk m1 scenario3_chunk2).map finalize_done
      = .ok { scenario3_start with
          status := .WaitingForToolCall,
          toolCalls := [⟨"x", "f", "\x7b\"a\":1\x7d"⟩] } := by
  refine ⟨apply_completion_chunk_frame_accretion, ?_⟩
  rfl

/-! ## C6 — final status of a streamed completion -/

/-- `fail_message` (src/chats.rs lines 371-383): marks the in-memory and
stored message `Failed`. -/
def fail_message (m : Message) : Message := { m with status := .Failed }

/-- One stream event as seen by the loop of `create_completion_stream`
after splitting on blank lines: a transport error from
`response.chunk()`; a frame failing the `data: ` prefix check or JSON
decoding (pushed to the remainder and retried); a decoded delta frame;
or the `data: [DONE]` terminator, tagged with whether the subsequent
`update_with_completion_result` database call succeeds. -/
inductive StreamEvent
  | chunkErr
  | truncated
  | delta (j : Json)
  | done (dbOk : Bool)

/-- `create_completion_stream` (src/chats.rs lines 225-339) over the
sequence of stream events: the final in-memory message, and `true` for
`Ok(())` / `false` for an error return (every error path first runs
`fail_message`). -/
def create_completion_stream : Message → List StreamEvent → Message × Bool
  | m, [] => (m, true)
  | m, ev :: rest =>
    match ev with
    | .chunkErr => (fail_message m, false)
    | .truncated => create_completion_stream m rest
    | .delta j =>
      match apply_completion_chunk m j with
      | .ok m1 => create_completion_stream m1 rest
      | .error _ => (fail_message m, false)
    | .done dbOk =>
      let m1 := finalize_done m
      if dbOk then create_completion_stream m1 rest
      else (fail_message m1, false)

/-- A well-formed SSE stream: `data: [DONE]` is a terminator, so no
event follows a `done`. -/
def doneIsLast : List StreamEvent → Bool
  | [] => true
  | .done _ :: rest => rest.isEmpty
  | _ :: rest => doneIsLast rest

/-- `create_completion` (src/chats.rs lines 52-146), from the insertion
of the dummy `Writing` assistant message `m0` onward: `emitOk` is the
success of the `MessageCreated` event emission that directly follows the
insert (chats.rs line 110; its error propagates via `?` with no
`fail_message`, leaving the message `Writing`); `toolsOk` is the success
of `construct_tools` (whose failure runs `fail_message`); after the
stream, a message still in `Writing` is failed and an error returned. -/
def create_completion_model (emitOk toolsOk : Bool) (m0 : Message)
    (events : List StreamEvent) : Message × Bool :=
  if emitOk then
    if toolsOk then
      match create_completion_stream m0 events with
      | (m1, false) => (m1, false)
      | (m1, true) =>
        if m1.status = .Writing then (fail_message m1, false) else (m1, true)
    else (fail_message m0, false)
  else (m0, false)

theorem apply_completion_chunk_status (m : Message) (j : Json) (m1 : Message)
    (h : apply_completion_chunk m j = .ok m1) : m1.status = m.status := by
  unfold apply_completion_chunk at h
  cases hstep : chunk_step m.toolCalls.getLast? (chunk_delta j) with
  | error e =>
    rw [hstep] at h
    simp at h
  | ok currentFinal =>
    rw [hstep] at h
    injection h with h1
    rw [← h1]

theorem create_completion_stream_inv (events : List StreamEvent) :
    ∀ m : Message, m.status = .Writing → doneIsLast events = true →
      ((create_completion_stream m events).2 = false →
        (create_completion_stream m events).1.status = .Failed) ∧
      ((create_completion_stream m events).2 = true →
        (create_completion_stream m events).1.status = .Writing ∨
        ((((create_completion_stream m events).1.status = .WaitingForToolCall ∨
           (create_completion_stream m events).1.status = .Completed) ∧
          ((create_completion_stream m events).1.status = .WaitingForToolCall ↔
            (create_completion_stream m events).1.toolCalls ≠ [])))) := by
  induction events with
  | nil =>
    intro m hw _
    refine ⟨fun h => by simp [create_completion_stream] at h, fun _ => ?_⟩
    left
    simpa [create_completion_stream] using hw
  | cons ev rest ih =>
    intro m hw hwf
    cases ev with
    | chunkErr =>
      refine ⟨fun _ => ?_, fun h => ?_⟩
      · simp [create_completion_stream, fail_message]
      · simp [create_completion_stream] at h
    | truncated =>
      have hwf' : doneIsLast rest = true := by simpa [doneIsLast] using hwf
      have := ih m hw hwf'
      simpa [create_completion_stream] using this
    | delta j =>
      have hwf' : doneIsLast rest = true := by simpa [doneIsLast] using hwf
      cases hap : apply_completion_chunk m j with
      | ok m1 =>
        have hst : m1.status = .Writing := by
          rw [apply_completion_chunk_status m j m1 hap, hw]
        have := ih m1 hst hwf'
        simpa [create_completion_stream, hap] using this
      | error e =>
        refine ⟨fun _ => ?_, fun h => ?_⟩
        · simp [create_completion_stream, hap, fail_message]
        · simp [create_completion_stream, hap] at h
    | done dbOk =>
      have hrest : rest = [] := by
        simpa [doneIsLast, List.isEmpty_iff] using hwf
      subst hrest
      cases dbOk with
      | true =>
        refine ⟨fun h => ?_, fun _ => ?_⟩
        · simp [create_completion_stream] at h
        · right
          by_cases he : m.toolCalls.isEmpty
        
          · have he' : m.toolCalls = [] := by simpa [List.isEmpty_iff] using he
            constructor
            · simp [create_completion_stream, finalize_done, he]
            · simp [create_completion_stream, finalize_done, he, he']
          · have he' : ¬m.toolCalls = [] := by simpa [List.isEmpty_iff] using he
            constructor
            · simp [create_completion_stream, finalize_done, he]
            · simp [create_completion_stream, finalize_done, he, he']
      | false =>
        refine ⟨fun _ => ?_, fun h => ?_⟩
        · simp [create_completion_stream, fail_message]
        · simp [create_completion_stream] at h

/-- C6 (amended): after `create_completion` returns — provided the
`MessageCreated` emission that directly follows the dummy-message insert
succeeds — the streamed assistant message's status is
`WaitingForToolCall` precisely when tool calls were accumulated (success
requires the `[DONE]` terminator to have arrived), `Completed` when
`[DONE]` arrived with no tool calls, and `Failed` on every other failure
path (including a stream that ends while the message is still
`Writing`); on those paths the status is never left as `Writing`.  When
that emission fails, `create_completion` returns an error with the
message still `Writing` (see the counterexample below). -/
theorem create_completion_status (toolsOk : Bool) (m0 : Message)
    (events : List StreamEvent)
    (hm0 : m0.status = .Writing) (hwf : doneIsLast events = true) :
    (create_completion_model true toolsOk m0 events).1.status ≠ .Writing ∧
    ((create_completion_model true toolsOk m0 events).2 = false →
      (create_completion_model true toolsOk m0 events).1.status = .Failed) ∧
    ((create_completion_model true toolsOk m0 events).2 = true →
      ((create_completion_model true toolsOk m0 events).1.status = .WaitingForToolCall ∨
       (create_completion_model true toolsOk m0 events).1.status = .Completed) ∧
      ((create_completion_model true toolsOk m0 events).1.status = .WaitingForToolCall ↔
        (create_completion_model true toolsOk m0 events).1.toolCalls ≠ [])) := by
  have hinv := create_completion_stream_inv events m0 hm0 hwf
  cases htools : toolsOk with
  | false =>
    refine ⟨?_, fun _ => ?_, fun h => ?_⟩
    · simp [create_completion_model, fail_message]
    · simp [create_completion_model, fail_message]
    · simp [create_completion_model] at h
  | true =>
    cases hs : create_completion_stream m0 events with
    | mk m1 ok =>
      rw [hs] at hinv
      cases ok with
      | false =>
        have hfail : m1.status = .Failed := hinv.1 rfl
        refine ⟨?_, fun _ => ?_, fun h => ?_⟩
        · simp [create_completion_model, hs, hfail]
        · simp [create_completion_model, hs, hfail]
        · simp [create_completion_model, hs] at h
      | true =>
        have hok : m1.status = .Writing ∨
            ((m1.status = .WaitingForToolCall ∨ m1.status = .Completed) ∧
             (m1.status = .WaitingForToolCall ↔ m1.toolCalls ≠ [])) := hinv.2 rfl
        by_cases hwr : m1.status = .Writing
        · refine ⟨?_, fun _ => ?_, fun h => ?_⟩
          · simp [create_completion_model, hs, hwr, fail_message]
          · simp [create_completion_model, hs, hwr, fail_message]
          · simp [create_completion_model, hs, hwr] at h
        · rcases hok with hok | hok
          · exact absurd hok hwr
          · refine ⟨?_, fun h => ?_, fun _ => ?_⟩
            · simp [create_completion_model, hs, hwr]
            · simp [create_completion_model, hs, hwr] at h
            · constructor
              · simpa [create_completion_model, hs, hwr] using hok.1
              · simpa [create_completion_model, hs, hwr] using hok.2

/-- C6 witness: a stream delivering one delta frame with a tool call and
then `[DONE]` ends `WaitingForToolCall`; the hypotheses are discharged
at a concrete dummy message and event list. -/
theorem create_completion_status_witness :
    (create_completion_model true true scenario3_start
        [.delta scenario3_chunk1, .done true]).1.status ≠ .Writing ∧
    ((create_completion_model true true scenario3_start
        [.delta scenario3_chunk1, .done true]).2 = true →
      ((create_completion_model true true scenario3_start
          [.delta scenario3_chunk1, .done true]).1.status = .WaitingForToolCall ∨
       (create_completion_model true true scenario3_start
          [.delta scenario3_chunk1, .done true]).1.status = .Completed) ∧
      ((create_completion_model true true scenario3_start
          [.delta scenario3_chunk1, .done true]).1.status = .WaitingForToolCall ↔
        (create_completion_model true true scenario3_start
          [.delta scenario3_chunk1, .done true]).1.toolCalls ≠ [])) := by
  have h := create_completion_status true scenario3_start
    [StreamEvent.delta scenario3_chunk1, StreamEvent.done true] rfl rfl
  exact ⟨h.1, h.2.2⟩

/-- C6 counterexample input: a freshly-inserted `Writing` dummy
assistant message. -/
def c6_dummy : Message :=
  { id := 7, companyId := 1, chatId := 9, agentId := some 2,
    status := .Writing, role := .Assistant }

/-- C6 counterexample: when the `MessageCreated` emission at
chats.rs:110 fails, `create_completion` returns the error as-is — no
`fail_message` runs on that path — and the streamed assistant message is
left with status `Writing`, refuting the claim's "Failed on every
failure path; the status is never left as Writing". -/
theorem create_completion_emit_failure :
    (create_completion_model false true c6_dummy []).2 = false ∧
    (create_completion_model false true c6_dummy []).1.status = MsgStatus.Writing := by
  exact ⟨rfl, rfl⟩
end Bridge
